import Mathlib

/-!
Verification of the fixbuf `ByteBuffer` (src/lib.rs): a fixed-capacity byte
store with independent read and write cursors, little-endian integer
accessors, and explicit bounds checks.  Bytes are modelled as `Nat` values
(every byte produced by the operations is below 256); machine-integer
encodings are written with explicit `% 256` and division, exactly mirroring
`byteorder`'s little-endian `write_u16` / `write_u32` / `read_u16` /
`read_u32`.
-/

instance {ε α : Type} [DecidableEq ε] [DecidableEq α] : DecidableEq (Except ε α)
  | .ok a, .ok b => if h : a = b then .isTrue (by rw [h]) else .isFalse (by simp [h])
  | .ok _, .error _ => .isFalse (by simp)
  | .error _, .ok _ => .isFalse (by simp)
  | .error a, .error b =>
      if h : a = b then .isTrue (by rw [h]) else .isFalse (by simp [h])

/-- The two error kinds of the library (`enum Error`). -/
inductive Error where
  | ReadOverflow
  | WriteOverflow
deriving DecidableEq, Repr

/-- The buffer struct: byte store, write cursor, read cursor. -/
structure ByteBuffer where
  data : List Nat
  wpos : Nat
  rpos : Nat
deriving DecidableEq, Repr

/-- `ByteBuffer::with_capacity(cap)`: a zero-filled store of `cap` bytes. -/
def with_capacity (cap : Nat) : ByteBuffer :=
  { data := List.replicate cap 0, wpos := 0, rpos := 0 }

/-- `ByteBuffer::default()` (derived `Default`): empty store, cursors at 0. -/
def mkDefault : ByteBuffer :=
  { data := [], wpos := 0, rpos := 0 }

/-- `len()`: the total capacity of the store. -/
def ByteBuffer.len (b : ByteBuffer) : Nat := b.data.length

/-- `read_remain()`: `len() - rpos` (truncated subtraction models usize). -/
def ByteBuffer.read_remain (b : ByteBuffer) : Nat := b.len - b.rpos

/-- `get_rpos()`. -/
def ByteBuffer.get_rpos (b : ByteBuffer) : Nat := b.rpos

/-- `get_wpos()`. -/
def ByteBuffer.get_wpos (b : ByteBuffer) : Nat := b.wpos

/-- `to_bytes()`: a copy of the whole store. -/
def ByteBuffer.to_bytes (b : ByteBuffer) : List Nat := b.data

/-- The copy loop of `write_bytes`: for each byte, `data[wpos] = *v; wpos += 1`.
Returns the updated store and the final write cursor. -/
def writeLoop : List Nat → Nat → List Nat → List Nat × Nat
  | [], w, d => (d, w)
  | v :: vs, w, d => writeLoop vs (w + 1) (d.set w v)

/-- `write_bytes(bytes)`: checks `bytes.len() + wpos > data.len()` first,
then copies byte by byte, advancing `wpos`. -/
def ByteBuffer.write_bytes (b : ByteBuffer) (bytes : List Nat) :
    Except Error ByteBuffer :=
  if bytes.length + b.wpos > b.data.length then
    .error .WriteOverflow
  else
    let p := writeLoop bytes b.wpos b.data
    .ok { data := p.1, wpos := p.2, rpos := b.rpos }

/-- `clear()`: rewinds both cursors, leaves the store untouched. -/
def ByteBuffer.clear (b : ByteBuffer) : ByteBuffer :=
  { b with wpos := 0, rpos := 0 }

/-- `LittleEndian::write_u16`: the two little-endian bytes of a 16-bit value. -/
def u16le (v : Nat) : List Nat := [v % 256, v / 256 % 256]

/-- `LittleEndian::write_u32`: the four little-endian bytes of a 32-bit value. -/
def u32le (v : Nat) : List Nat :=
  [v % 256, v / 256 % 256, v / 65536 % 256, v / 16777216 % 256]

/-- `write_u8(val)`: delegates to `write_bytes(&[val])`. -/
def ByteBuffer.write_u8 (b : ByteBuffer) (v : Nat) : Except Error ByteBuffer :=
  b.write_bytes [v]

/-- `write_u16(val)`: little-endian encode, then `write_bytes`. -/
def ByteBuffer.write_u16 (b : ByteBuffer) (v : Nat) : Except Error ByteBuffer :=
  b.write_bytes (u16le v)

/-- `write_u32(val)`: little-endian encode, then `write_bytes`. -/
def ByteBuffer.write_u32 (b : ByteBuffer) (v : Nat) : Except Error ByteBuffer :=
  b.write_bytes (u32le v)

/-- Rust slice indexing `l[lo..hi]`: defined exactly when `lo ≤ hi ≤ l.length`
(out of range panics in Rust, hence `Option` here). -/
def sliceRange (l : List Nat) (lo hi : Nat) : Option (List Nat) :=
  if lo ≤ hi ∧ hi ≤ l.length then some ((l.drop lo).take (hi - lo)) else none

/-- `read_bytes(size)`: checks `rpos + size > data.len()`, then copies
`data[rpos..rpos+size]` into a fresh vector and advances `rpos`. -/
def ByteBuffer.read_bytes (b : ByteBuffer) (size : Nat) :
    Except Error (List Nat × ByteBuffer) :=
  if b.rpos + size > b.data.length then
    .error .ReadOverflow
  else
    .ok ((b.data.drop b.rpos).take size, { b with rpos := b.rpos + size })

/-- `read_u8_as_u32()`: checks `rpos >= data.len()`, reads one byte,
advances `rpos` by 1, widens (identity on `Nat`). -/
def ByteBuffer.read_u8_as_u32 (b : ByteBuffer) : Except Error (Nat × ByteBuffer) :=
  if b.rpos ≥ b.data.length then
    .error .ReadOverflow
  else
    .ok (b.data.getD b.rpos 0, { b with rpos := b.rpos + 1 })

/-- `read_u16_as_u32()`: checks `rpos + 2 >= data.len()` (the legacy biased
check), reads `data[rpos..rpos+2]` little-endian, advances `rpos` by 2. -/
def ByteBuffer.read_u16_as_u32 (b : ByteBuffer) : Except Error (Nat × ByteBuffer) :=
  if b.rpos + 2 ≥ b.data.length then
    .error .ReadOverflow
  else
    .ok (b.data.getD b.rpos 0 + 256 * b.data.getD (b.rpos + 1) 0,
         { b with rpos := b.rpos + 2 })

/-- `read_u32()`: checks `rpos + 4 >= data.len()` (the legacy biased check),
reads `data[rpos..rpos+4]` little-endian, advances `rpos` by 4. -/
def ByteBuffer.read_u32 (b : ByteBuffer) : Except Error (Nat × ByteBuffer) :=
  if b.rpos + 4 ≥ b.data.length then
    .error .ReadOverflow
  else
    .ok (b.data.getD b.rpos 0 + 256 * b.data.getD (b.rpos + 1) 0 +
           65536 * b.data.getD (b.rpos + 2) 0 +
           16777216 * b.data.getD (b.rpos + 3) 0,
         { b with rpos := b.rpos + 4 })

/-- One public mutating operation of the API. -/
inductive Op where
  | opWriteBytes (bs : List Nat)
  | opWriteU8 (v : Nat)
  | opWriteU16 (v : Nat)
  | opWriteU32 (v : Nat)
  | opReadBytes (n : Nat)
  | opReadU8
  | opReadU16
  | opReadU32
  | opClear
deriving DecidableEq, Repr

/-- Whether an operation is one of the four writes. -/
def Op.isWrite : Op → Bool
  | .opWriteBytes _ | .opWriteU8 _ | .opWriteU16 _ | .opWriteU32 _ => true
  | _ => false

/-- Whether an operation is one of the four reads. -/
def Op.isRead : Op → Bool
  | .opReadBytes _ | .opReadU8 | .opReadU16 | .opReadU32 => true
  | _ => false

/-- On failure the Rust caller still holds the untouched buffer. -/
def keepOnErr (b : ByteBuffer) : Except Error ByteBuffer → ByteBuffer
  | .ok b' => b'
  | .error _ => b

/-- Apply one operation to a buffer; a failing operation leaves it unchanged,
as in the source every check precedes every mutation. -/
def applyOp (b : ByteBuffer) : Op → ByteBuffer
  | .opWriteBytes bs => keepOnErr b (b.write_bytes bs)
  | .opWriteU8 v => keepOnErr b (b.write_u8 v)
  | .opWriteU16 v => keepOnErr b (b.write_u16 v)
  | .opWriteU32 v => keepOnErr b (b.write_u32 v)
  | .opReadBytes n =>
      match b.read_bytes n with
      | .ok (_, b') => b'
      | .error _ => b
  | .opReadU8 =>
      match b.read_u8_as_u32 with
      | .ok (_, b') => b'
      | .error _ => b
  | .opReadU16 =>
      match b.read_u16_as_u32 with
      | .ok (_, b') => b'
      | .error _ => b
  | .opReadU32 =>
      match b.read_u32 with
      | .ok (_, b') => b'
      | .error _ => b
  | .opClear => b.clear

/-- Run a sequence of operations from a starting buffer. -/
def runOps (b : ByteBuffer) (ops : List Op) : ByteBuffer :=
  ops.foldl applyOp b

/-- The write-a-triple-then-read-it-back scenario of the spec, as one
function: write `u8`, `u16`, `u32`, then read them back in order and widths. -/
def roundtripRun (cap a bv c : Nat) : Except Error (Nat × Nat × Nat) :=
  match (with_capacity cap).write_u8 a with
  | .error e => .error e
  | .ok b1 =>
    match b1.write_u16 bv with
    | .error e => .error e
    | .ok b2 =>
      match b2.write_u32 c with
      | .error e => .error e
      | .ok b3 =>
        match b3.read_u8_as_u32 with
        | .error e => .error e
        | .ok (x, b4) =>
          match b4.read_u16_as_u32 with
          | .error e => .error e
          | .ok (y, b5) =>
            match b5.read_u32 with
            | .error e => .error e
            | .ok (z, _) => .ok (x, y, z)

/-- The copy loop ends with the write cursor advanced by the byte count. -/
theorem writeLoop_snd (bs : List Nat) (w : Nat) (d : List Nat) :
    (writeLoop bs w d).2 = w + bs.length := by
  induction bs generalizing w d with
  | nil => simp [writeLoop]
  | cons v vs ih => simp [writeLoop, ih]; omega

/-- The copy loop never changes the length of the store. -/
theorem writeLoop_fst_length (bs : List Nat) (w : Nat) (d : List Nat) :
    (writeLoop bs w d).1.length = d.length := by
  induction bs generalizing w d with
  | nil => rfl
  | cons v vs ih => simp [writeLoop, ih]

/-- Setting one position leaves every other position of the store alone. -/
theorem getD_set_ne (d : List Nat) (i j v : Nat) (h : i ≠ j) :
    (d.set i v).getD j 0 = d.getD j 0 := by
  induction d generalizing i j with
  | nil => simp
  | cons x xs ih =>
    cases i with
    | zero =>
      cases j with
      | zero => exact absurd rfl h
      | succ j => simp
    | succ i =>
      cases j with
      | zero => simp
      | succ j => simpa using ih i j (fun hh => h (by omega))

/-- Setting an in-range position stores exactly that byte. -/
theorem getD_set_self (d : List Nat) (i v : Nat) (h : i < d.length) :
    (d.set i v).getD i 0 = v := by
  induction d generalizing i with
  | nil => simp at h
  | cons x xs ih =>
    cases i with
    | zero => rfl
    | succ i => simpa using ih i (by simpa using h)

/-- The copy loop leaves every position before the write cursor alone. -/
theorem writeLoop_getD_lt (bs : List Nat) (w i : Nat) (d : List Nat) (h : i < w) :
    (writeLoop bs w d).1.getD i 0 = d.getD i 0 := by
  induction bs generalizing w d with
  | nil => rfl
  | cons v vs ih =>
    rw [writeLoop, ih (w + 1) (d.set w v) (by omega),
      getD_set_ne d w i v (by omega)]

/-- The copy loop leaves every position at or beyond the copied window alone. -/
theorem writeLoop_getD_ge (bs : List Nat) (w i : Nat) (d : List Nat)
    (h : w + bs.length ≤ i) :
    (writeLoop bs w d).1.getD i 0 = d.getD i 0 := by
  induction bs generalizing w d with
  | nil => rfl
  | cons v vs ih =>
    rw [writeLoop, ih (w + 1) (d.set w v) (by simp at h; omega),
      getD_set_ne d w i v (by simp at h; omega)]

/-- Inside the copied window the store holds exactly the copied bytes. -/
theorem writeLoop_getD_at (bs : List Nat) (w j : Nat) (d : List Nat)
    (hlen : w + bs.length ≤ d.length) (hj : j < bs.length) :
    (writeLoop bs w d).1.getD (w + j) 0 = bs.getD j 0 := by
  induction bs generalizing w d j with
  | nil => simp at hj
  | cons v vs ih =>
    cases j with
    | zero =>
      rw [writeLoop]
      rw [writeLoop_getD_lt vs (w + 1) (w + 0) (d.set w v) (by omega)]
      simpa using getD_set_self d w v (by simp at hlen; omega)
    | succ j =>
      rw [writeLoop, show w + (j + 1) = (w + 1) + j by omega,
        ih (w + 1) j (d.set w v) (by simp at hlen ⊢; omega) (by simp at hj; omega)]
      simp

/-- Successful `write_bytes`: the guard passes, the loop runs, the write
cursor advances by the byte count and the read cursor is untouched. -/
theorem write_bytes_ok (b : ByteBuffer) (bytes : List Nat)
    (h : bytes.length + b.wpos ≤ b.data.length) :
    b.write_bytes bytes =
      .ok { data := (writeLoop bytes b.wpos b.data).1,
            wpos := b.wpos + bytes.length, rpos := b.rpos } := by
  unfold ByteBuffer.write_bytes
  rw [if_neg (by omega)]
  simp [writeLoop_snd]

/-- Failing `write_bytes`: the guard trips before any mutation. -/
theorem write_bytes_err (b : ByteBuffer) (bytes : List Nat)
    (h : b.data.length < bytes.length + b.wpos) :
    b.write_bytes bytes = .error .WriteOverflow := by
  unfold ByteBuffer.write_bytes
  rw [if_pos (by omega)]

/-- A `write_bytes` step (successful or not) keeps the store length. -/
theorem writeStep_len (b : ByteBuffer) (bytes : List Nat) :
    (keepOnErr b (b.write_bytes bytes)).data.length = b.data.length := by
  unfold ByteBuffer.write_bytes
  by_cases h : bytes.length + b.wpos > b.data.length
  · simp [h, keepOnErr]
  · simp [h, keepOnErr, writeLoop_fst_length]

/-- A `write_bytes` step never touches the read cursor. -/
theorem writeStep_rpos (b : ByteBuffer) (bytes : List Nat) :
    (keepOnErr b (b.write_bytes bytes)).rpos = b.rpos := by
  unfold ByteBuffer.write_bytes
  by_cases h : bytes.length + b.wpos > b.data.length
  · simp [h, keepOnErr]
  · simp [h, keepOnErr]

/-- A `write_bytes` step never decreases the write cursor. -/
theorem writeStep_wpos_ge (b : ByteBuffer) (bytes : List Nat) :
    b.wpos ≤ (keepOnErr b (b.write_bytes bytes)).wpos := by
  unfold ByteBuffer.write_bytes
  by_cases h : bytes.length + b.wpos > b.data.length
  · simp [h, keepOnErr]
  · simp [h, keepOnErr, writeLoop_snd]

/-- A `write_bytes` step keeps the write cursor within the store. -/
theorem writeStep_wpos_le (b : ByteBuffer) (bytes : List Nat)
    (hw : b.wpos ≤ b.data.length) :
    (keepOnErr b (b.write_bytes bytes)).wpos ≤
      (keepOnErr b (b.write_bytes bytes)).data.length := by
  unfold ByteBuffer.write_bytes
  by_cases h : bytes.length + b.wpos > b.data.length
  · simp [h, keepOnErr, hw]
  · simp [h, keepOnErr, writeLoop_snd, writeLoop_fst_length]
    omega

/-- A `write_bytes` step changes the store only inside the written window
`[old wpos, new wpos)`. -/
theorem writeStep_frame (b : ByteBuffer) (bytes : List Nat) (i : Nat)
    (h : i < b.wpos ∨ (keepOnErr b (b.write_bytes bytes)).wpos ≤ i) :
    (keepOnErr b (b.write_bytes bytes)).data.getD i 0 = b.data.getD i 0 := by
  unfold ByteBuffer.write_bytes at h ⊢
  by_cases hg : bytes.length + b.wpos > b.data.length
  · simp [hg, keepOnErr]
  · simp only [hg, if_false, gt_iff_lt, if_neg, keepOnErr] at h ⊢
    rcases h with h | h
    · exact writeLoop_getD_lt bytes b.wpos i b.data h
    · rw [writeLoop_snd] at h
      exact writeLoop_getD_ge bytes b.wpos i b.data h

/-- A read step (successful or not) keeps the store and the write cursor,
and never decreases the read cursor. -/
theorem readStep_frame (b : ByteBuffer) (op : Op) (h : op.isRead = true) :
    (applyOp b op).data = b.data ∧ (applyOp b op).wpos = b.wpos ∧
      b.rpos ≤ (applyOp b op).rpos := by
  cases op with
  | opReadBytes n =>
    unfold applyOp ByteBuffer.read_bytes
    by_cases hg : b.rpos + n > b.data.length
    · simp [hg]
    · simp [hg]
  | opReadU8 =>
    unfold applyOp ByteBuffer.read_u8_as_u32
    by_cases hg : b.rpos ≥ b.data.length
    · simp [hg]
    · simp [hg]
  | opReadU16 =>
    unfold applyOp ByteBuffer.read_u16_as_u32
    by_cases hg : b.rpos + 2 ≥ b.data.length
    · simp [hg]
    · simp [hg]
  | opReadU32 =>
    unfold applyOp ByteBuffer.read_u32
    by_cases hg : b.rpos + 4 ≥ b.data.length
    · simp [hg]
    · simp [hg]
  | opWriteBytes bs => simp [Op.isRead] at h
  | opWriteU8 v => simp [Op.isRead] at h
  | opWriteU16 v => simp [Op.isRead] at h
  | opWriteU32 v => simp [Op.isRead] at h
  | opClear => simp [Op.isRead] at h

/-- A read step keeps the read cursor within the store. -/
theorem readStep_rpos_le (b : ByteBuffer) (op : Op) (h : op.isRead = true)
    (hr : b.rpos ≤ b.data.length) :
    (applyOp b op).rpos ≤ (applyOp b op).data.length := by
  cases op with
  | opReadBytes n =>
    unfold applyOp ByteBuffer.read_bytes
    by_cases hg : b.rpos + n > b.data.length
    · simp [hg, hr]
    · simp [hg]; omega
  | opReadU8 =>
    unfold applyOp ByteBuffer.read_u8_as_u32
    by_cases hg : b.rpos ≥ b.data.length
    · simp [hg, hr]
    · simp [hg]; omega
  | opReadU16 =>
    unfold applyOp ByteBuffer.read_u16_as_u32
    by_cases hg : b.rpos + 2 ≥ b.data.length
    · simp [hg, hr]
    · simp [hg]; omega
  | opReadU32 =>
    unfold applyOp ByteBuffer.read_u32
    by_cases hg : b.rpos + 4 ≥ b.data.length
    · simp [hg, hr]
    · simp [hg]; omega
  | opWriteBytes bs => simp [Op.isRead] at h
  | opWriteU8 v => simp [Op.isRead] at h
  | opWriteU16 v => simp [Op.isRead] at h
  | opWriteU32 v => simp [Op.isRead] at h
  | opClear => simp [Op.isRead] at h

/-- The cursor invariant: both cursors stay within the store. -/
def CursorInv (b : ByteBuffer) : Prop :=
  b.wpos ≤ b.data.length ∧ b.rpos ≤ b.data.length

/-- A `write_bytes` step preserves the cursor invariant. -/
theorem writeStep_inv (b : ByteBuffer) (bytes : List Nat) (h : CursorInv b) :
    CursorInv (keepOnErr b (b.write_bytes bytes)) :=
  ⟨writeStep_wpos_le b bytes h.1, by
    rw [writeStep_rpos, writeStep_len]; exact h.2⟩

/-- Every operation keeps the store length (capacity is immutable). -/
theorem applyOp_len (b : ByteBuffer) (op : Op) :
    (applyOp b op).data.length = b.data.length := by
  cases op with
  | opWriteBytes bs => exact writeStep_len b bs
  | opWriteU8 v => exact writeStep_len b [v]
  | opWriteU16 v => exact writeStep_len b (u16le v)
  | opWriteU32 v => exact writeStep_len b (u32le v)
  | opReadBytes n => rw [(readStep_frame b (.opReadBytes n) rfl).1]
  | opReadU8 => rw [(readStep_frame b .opReadU8 rfl).1]
  | opReadU16 => rw [(readStep_frame b .opReadU16 rfl).1]
  | opReadU32 => rw [(readStep_frame b .opReadU32 rfl).1]
  | opClear => rfl

/-- Every operation preserves the cursor invariant. -/
theorem applyOp_inv (b : ByteBuffer) (op : Op) (h : CursorInv b) :
    CursorInv (applyOp b op) := by
  cases op with
  | opWriteBytes bs => exact writeStep_inv b bs h
  | opWriteU8 v => exact writeStep_inv b [v] h
  | opWriteU16 v => exact writeStep_inv b (u16le v) h
  | opWriteU32 v => exact writeStep_inv b (u32le v) h
  | opReadBytes n =>
    refine ⟨?_, readStep_rpos_le b (.opReadBytes n) rfl h.2⟩
    rw [(readStep_frame b (.opReadBytes n) rfl).1,
      (readStep_frame b (.opReadBytes n) rfl).2.1]
    exact h.1
  | opReadU8 =>
    refine ⟨?_, readStep_rpos_le b .opReadU8 rfl h.2⟩
    rw [(readStep_frame b .opReadU8 rfl).1, (readStep_frame b .opReadU8 rfl).2.1]
    exact h.1
  | opReadU16 =>
    refine ⟨?_, readStep_rpos_le b .opReadU16 rfl h.2⟩
    rw [(readStep_frame b .opReadU16 rfl).1, (readStep_frame b .opReadU16 rfl).2.1]
    exact h.1
  | opReadU32 =>
    refine ⟨?_, readStep_rpos_le b .opReadU32 rfl h.2⟩
    rw [(readStep_frame b .opReadU32 rfl).1, (readStep_frame b .opReadU32 rfl).2.1]
    exact h.1
  | opClear => exact ⟨Nat.zero_le _, Nat.zero_le _⟩

/-- Running any operation sequence preserves the cursor invariant. -/
theorem runOps_inv (ops : List Op) (b : ByteBuffer) (h : CursorInv b) :
    CursorInv (runOps b ops) := by
  induction ops generalizing b with
  | nil => exact h
  | cons op ops ih => exact ih (applyOp b op) (applyOp_inv b op h)

/-- Running any operation sequence keeps the store length. -/
theorem runOps_len (ops : List Op) (b : ByteBuffer) :
    (runOps b ops).data.length = b.data.length := by
  induction ops generalizing b with
  | nil => rfl
  | cons op ops ih => rw [show runOps b (op :: ops) = runOps (applyOp b op) ops from rfl,
      ih (applyOp b op), applyOp_len]

/-- C7: after `clear()` both cursors read 0 and `to_bytes()` returns exactly
the bytes it returned before — the store is not zeroed or altered. -/
theorem clear_resets_cursors_keeps_bytes (b : ByteBuffer) :
    b.clear.get_rpos = 0 ∧ b.clear.get_wpos = 0 ∧
      b.clear.to_bytes = b.to_bytes :=
  ⟨rfl, rfl, rfl⟩

/-- C8: `with_capacity(cap)` yields capacity `cap`, an all-zero store, and
both cursors at 0; default construction is `with_capacity 0`. -/
theorem with_capacity_zero_filled (cap : Nat) :
    (with_capacity cap).len = cap ∧
    (with_capacity cap).to_bytes = List.replicate cap 0 ∧
    (∀ i, i < cap → (with_capacity cap).data.getD i 0 = 0) ∧
    (with_capacity cap).get_rpos = 0 ∧
    (with_capacity cap).get_wpos = 0 ∧
    mkDefault = with_capacity 0 := by
  refine ⟨by simp [with_capacity, ByteBuffer.len], rfl, ?_, rfl, rfl, rfl⟩
  intro i hi
  simp [with_capacity]

/-- C8 witness at capacity 5, index 2. -/
theorem with_capacity_zero_filled_witness :
    (with_capacity 5).len = 5 ∧ (with_capacity 5).data.getD 2 0 = 0 :=
  ⟨(with_capacity_zero_filled 5).1,
   (with_capacity_zero_filled 5).2.2.1 2 (by decide)⟩

/-- C5: `read_u8_as_u32` fails with `ReadOverflow` exactly when
`rpos >= len()`; otherwise it returns `data[rpos]` widened and advances
`rpos` by 1 — so one remaining byte is enough. -/
theorem read_u8_as_u32_spec (b : ByteBuffer) :
    (b.read_u8_as_u32 = .error .ReadOverflow ↔ b.rpos ≥ b.len) ∧
    (b.rpos < b.len →
      b.read_u8_as_u32 =
        .ok (b.data.getD b.rpos 0, { b with rpos := b.rpos + 1 })) := by
  unfold ByteBuffer.read_u8_as_u32 ByteBuffer.len
  constructor
  · by_cases h : b.rpos ≥ b.data.length
    · simp [h]
    · simp [h]
  · intro h
    rw [if_neg (by omega)]

/-- C5 witness: one byte remaining (capacity 1, `rpos` 0) succeeds. -/
theorem read_u8_as_u32_spec_witness :
    (with_capacity 1).read_u8_as_u32 =
      .ok ((with_capacity 1).data.getD (with_capacity 1).rpos 0,
           { with_capacity 1 with rpos := (with_capacity 1).rpos + 1 }) :=
  (read_u8_as_u32_spec (with_capacity 1)).2 (by decide)

/-- C4: `read_bytes(size)` fails with `ReadOverflow` exactly when
`rpos + size > len()`; on success it returns a fresh copy of the `size`
bytes at `rpos` and advances `rpos` by `size`; `read_bytes(0)` always
succeeds (whenever `rpos ≤ len()`) with an empty result and no cursor
movement. -/
theorem read_bytes_spec (b : ByteBuffer) (size : Nat) :
    (b.read_bytes size = .error .ReadOverflow ↔ b.rpos + size > b.len) ∧
    (∀ res b', b.read_bytes size = .ok (res, b') →
      res = (b.data.drop b.rpos).take size ∧ res.length = size ∧
      b'.rpos = b.rpos + size ∧ b'.wpos = b.wpos ∧ b'.data = b.data) ∧
    (b.rpos ≤ b.len → b.read_bytes 0 = .ok ([], b)) := by
  unfold ByteBuffer.read_bytes ByteBuffer.len
  refine ⟨?_, ?_, ?_⟩
  · by_cases h : b.rpos + size > b.data.length
    · simp [h]
    · simp [h]
  · intro res b' h
    by_cases hg : b.rpos + size > b.data.length
    · rw [if_pos hg] at h
      exact absurd h (by simp)
    · rw [if_neg hg] at h
      simp only [Except.ok.injEq, Prod.mk.injEq] at h
      obtain ⟨hres, hb'⟩ := h
      subst hres
      subst hb'
      refine ⟨rfl, ?_, rfl, rfl, rfl⟩
      rw [List.length_take, List.length_drop]
      omega
  · intro h
    rw [if_neg (by omega)]
    rfl

/-- C4 witness: a 2-byte read from capacity 3 and a 0-byte read. -/
theorem read_bytes_spec_witness :
    ([0, 0] : List Nat).length = 2 ∧
    (with_capacity 3).read_bytes 0 = .ok ([], with_capacity 3) :=
  ⟨((read_bytes_spec (with_capacity 3) 2).2.1 [0, 0]
      ⟨List.replicate 3 0, 0, 2⟩ (by decide)).2.1,
   (read_bytes_spec (with_capacity 3) 2).2.2 (by decide)⟩

/-- C2: the 2- and 4-byte reads use the biased checks `rpos + 2 >= len()`
and `rpos + 4 >= len()` (an exact iff), so a `u32` written into a capacity-4
buffer cannot be read back: `read_u32` at `rpos = 0` fails. -/
theorem read_checks_off_by_one :
    (∀ b : ByteBuffer,
      (b.read_u16_as_u32 = .error .ReadOverflow ↔ b.rpos + 2 ≥ b.len)) ∧
    (∀ b : ByteBuffer,
      (b.read_u32 = .error .ReadOverflow ↔ b.rpos + 4 ≥ b.len)) ∧
    (with_capacity 4).write_u32 1 =
      .ok { data := [1, 0, 0, 0], wpos := 4, rpos := 0 } ∧
    ({ data := [1, 0, 0, 0], wpos := 4, rpos := 0 } : ByteBuffer).read_u32 =
      .error .ReadOverflow := by
  refine ⟨?_, ?_, by decide, by decide⟩
  · intro b
    unfold ByteBuffer.read_u16_as_u32 ByteBuffer.len
    by_cases h : b.rpos + 2 ≥ b.data.length
    · simp [h]
    · simp [h]
  · intro b
    unfold ByteBuffer.read_u32 ByteBuffer.len
    by_cases h : b.rpos + 4 ≥ b.data.length
    · simp [h]
    · simp [h]

/-- C3: `write_bytes` fails with `WriteOverflow` exactly when
`wpos + bytes.length > len()`; failure mutates nothing; success copies the
bytes at `wpos`, advances `wpos` by the byte count and keeps `rpos`; the
empty write succeeds and moves nothing. -/
theorem write_bytes_atomic (b : ByteBuffer) (bytes : List Nat) :
    (b.write_bytes bytes = .error .WriteOverflow ↔
      b.wpos + bytes.length > b.len) ∧
    (b.write_bytes bytes = .error .WriteOverflow →
      applyOp b (.opWriteBytes bytes) = b) ∧
    (∀ b', b.write_bytes bytes = .ok b' →
      b'.wpos = b.wpos + bytes.length ∧ b'.rpos = b.rpos ∧ b'.len = b.len ∧
      (∀ j, j < bytes.length → b'.data.getD (b.wpos + j) 0 = bytes.getD j 0) ∧
      (∀ i, i < b.wpos ∨ b.wpos + bytes.length ≤ i →
        b'.data.getD i 0 = b.data.getD i 0)) ∧
    (b.wpos ≤ b.len → b.write_bytes [] = .ok b) := by
  refine ⟨?_, ?_, ?_, ?_⟩
  · unfold ByteBuffer.write_bytes ByteBuffer.len
    by_cases h : bytes.length + b.wpos > b.data.length
    · simp [h]; omega
    · simp [h]; omega
  · intro h
    simp [applyOp, keepOnErr, h]
  · intro b' h
    by_cases hg : bytes.length + b.wpos > b.data.length
    · rw [write_bytes_err b bytes (by omega)] at h
      exact absurd h (by simp)
    · rw [write_bytes_ok b bytes (by omega)] at h
      simp only [Except.ok.injEq] at h
      subst h
      refine ⟨rfl, rfl, ?_, ?_, ?_⟩
      · unfold ByteBuffer.len
        exact writeLoop_fst_length bytes b.wpos b.data
      · intro j hj
        exact writeLoop_getD_at bytes b.wpos j b.data (by omega) hj
      · intro i hi
        rcases hi with hi | hi
        · exact writeLoop_getD_lt bytes b.wpos i b.data hi
        · exact writeLoop_getD_ge bytes b.wpos i b.data hi
  · intro h
    unfold ByteBuffer.len at h
    rw [write_bytes_ok b [] (by simpa using h)]
    rfl

/-- C3 witness: a full 2-byte write into capacity 2, and the empty write. -/
theorem write_bytes_atomic_witness :
    ({ data := [5, 6], wpos := 2, rpos := 0 } : ByteBuffer).wpos =
      (with_capacity 2).wpos + [5, 6].length ∧
    (with_capacity 2).write_bytes [] = .ok (with_capacity 2) :=
  ⟨((write_bytes_atomic (with_capacity 2) [5, 6]).2.2.1
      { data := [5, 6], wpos := 2, rpos := 0 } (by decide)).1,
   (write_bytes_atomic (with_capacity 2) []).2.2.2 (by decide)⟩

/-- C9: under the bounds check guarding the success path of `read_bytes`,
the slice `data[rpos..rpos+size]` is in bounds (the checked access returns a
value), its copy has exactly `size` bytes, and `read_bytes` succeeds. -/
theorem read_bytes_copy_safe (b : ByteBuffer) (size : Nat)
    (h : b.rpos + size ≤ b.len) :
    sliceRange b.data b.rpos (b.rpos + size) =
      some ((b.data.drop b.rpos).take size) ∧
    ((b.data.drop b.rpos).take size).length = size ∧
    b.read_bytes size =
      .ok ((b.data.drop b.rpos).take size, { b with rpos := b.rpos + size }) := by
  unfold ByteBuffer.len at h
  refine ⟨?_, ?_, ?_⟩
  · unfold sliceRange
    rw [if_pos ⟨by omega, h⟩]
    simp
  · rw [List.length_take, List.length_drop]
    omega
  · unfold ByteBuffer.read_bytes
    rw [if_neg (by omega)]

/-- C9 witness: a 4-byte read exactly filling a capacity-4 store is in
bounds for the raw slice access. -/
theorem read_bytes_copy_safe_witness :
    sliceRange (with_capacity 4).data (with_capacity 4).rpos
        ((with_capacity 4).rpos + 4) =
      some (((with_capacity 4).data.drop (with_capacity 4).rpos).take 4) ∧
    (((with_capacity 4).data.drop (with_capacity 4).rpos).take 4).length = 4 ∧
    (with_capacity 4).read_bytes 4 =
      .ok (((with_capacity 4).data.drop (with_capacity 4).rpos).take 4,
           { with_capacity 4 with rpos := (with_capacity 4).rpos + 4 }) :=
  read_bytes_copy_safe (with_capacity 4) 4 (by decide)

/-- C10: every read leaves the store and the write cursor alone, succeed or
fail; every write leaves the read cursor alone and touches the store only in
the window `[old wpos, new wpos)`. -/
theorem cursor_independence (b : ByteBuffer) (op : Op) :
    (op.isRead = true →
      (applyOp b op).data = b.data ∧ (applyOp b op).wpos = b.wpos) ∧
    (op.isWrite = true →
      (applyOp b op).rpos = b.rpos ∧
      ∀ i, i < b.wpos ∨ (applyOp b op).wpos ≤ i →
        (applyOp b op).data.getD i 0 = b.data.getD i 0) := by
  constructor
  · intro h
    exact ⟨(readStep_frame b op h).1, (readStep_frame b op h).2.1⟩
  · intro h
    cases op with
    | opWriteBytes bs =>
      exact ⟨writeStep_rpos b bs, fun i hi => writeStep_frame b bs i hi⟩
    | opWriteU8 v =>
      exact ⟨writeStep_rpos b [v], fun i hi => writeStep_frame b [v] i hi⟩
    | opWriteU16 v =>
      exact ⟨writeStep_rpos b (u16le v), fun i hi => writeStep_frame b (u16le v) i hi⟩
    | opWriteU32 v =>
      exact ⟨writeStep_rpos b (u32le v), fun i hi => writeStep_frame b (u32le v) i hi⟩
    | opReadBytes n => simp [Op.isWrite] at h
    | opReadU8 => simp [Op.isWrite] at h
    | opReadU16 => simp [Op.isWrite] at h
    | opReadU32 => simp [Op.isWrite] at h
    | opClear => simp [Op.isWrite] at h

/-- C10 witness: a read keeps the store, a write keeps the read cursor. -/
theorem cursor_independence_witness :
    (applyOp (with_capacity 2) Op.opReadU8).data = (with_capacity 2).data ∧
    (applyOp (with_capacity 2) (Op.opWriteU8 7)).rpos = (with_capacity 2).rpos :=
  ⟨((cursor_independence (with_capacity 2) Op.opReadU8).1 rfl).1,
   ((cursor_independence (with_capacity 2) (Op.opWriteU8 7)).2 rfl).1⟩

/-- C6: every buffer reachable by running public operations from
`with_capacity` keeps both cursors within the store, keeps its capacity,
and `read_remain` is an exact difference; moreover every single operation
preserves capacity, writes never decrease `wpos`, reads never decrease
`rpos`. -/
theorem reachable_cursor_invariant :
    (∀ (cap : Nat) (ops : List Op),
      (runOps (with_capacity cap) ops).wpos ≤ (runOps (with_capacity cap) ops).len ∧
      (runOps (with_capacity cap) ops).rpos ≤ (runOps (with_capacity cap) ops).len ∧
      (runOps (with_capacity cap) ops).len = cap ∧
      (runOps (with_capacity cap) ops).read_remain +
          (runOps (with_capacity cap) ops).rpos =
        (runOps (with_capacity cap) ops).len) ∧
    (∀ (b : ByteBuffer) (op : Op), (applyOp b op).len = b.len) ∧
    (∀ (b : ByteBuffer) (op : Op), op.isWrite = true →
      b.wpos ≤ (applyOp b op).wpos) ∧
    (∀ (b : ByteBuffer) (op : Op), op.isRead = true →
      b.rpos ≤ (applyOp b op).rpos) := by
  refine ⟨?_, ?_, ?_, ?_⟩
  · intro cap ops
    obtain ⟨hw, hr⟩ :=
      runOps_inv ops (with_capacity cap) ⟨by simp [with_capacity], by simp [with_capacity]⟩
    have hl : (runOps (with_capacity cap) ops).data.length = cap := by
      rw [runOps_len]
      simp [with_capacity]
    refine ⟨by unfold ByteBuffer.len; omega, by unfold ByteBuffer.len; omega,
      by unfold ByteBuffer.len; omega, ?_⟩
    unfold ByteBuffer.read_remain ByteBuffer.len
    omega
  · intro b op
    unfold ByteBuffer.len
    exact applyOp_len b op
  · intro b op h
    cases op with
    | opWriteBytes bs => exact writeStep_wpos_ge b bs
    | opWriteU8 v => exact writeStep_wpos_ge b [v]
    | opWriteU16 v => exact writeStep_wpos_ge b (u16le v)
    | opWriteU32 v => exact writeStep_wpos_ge b (u32le v)
    | opReadBytes n => simp [Op.isWrite] at h
    | opReadU8 => simp [Op.isWrite] at h
    | opReadU16 => simp [Op.isWrite] at h
    | opReadU32 => simp [Op.isWrite] at h
    | opClear => simp [Op.isWrite] at h
  · intro b op h
    exact (readStep_frame b op h).2.2

/-- C6 witness: one write then one read from a capacity-2 buffer. -/
theorem reachable_cursor_invariant_witness :
    (with_capacity 2).wpos ≤ (applyOp (with_capacity 2) (Op.opWriteU8 7)).wpos ∧
    (with_capacity 2).rpos ≤ (applyOp (with_capacity 2) Op.opReadU8).rpos :=
  ⟨reachable_cursor_invariant.2.2.1 (with_capacity 2) (Op.opWriteU8 7) rfl,
   reachable_cursor_invariant.2.2.2 (with_capacity 2) Op.opReadU8 rfl⟩

/-- C1: writing a `u8`, a `u16` and a `u32` in sequence into a fresh buffer
of sufficient capacity (at least 8, which the biased final `read_u32` check
requires), then reading them back in the same order and widths, returns the
original values widened to 32 bits. -/
theorem roundtrip_u8_u16_u32 (cap a bv c : Nat) (hcap : 8 ≤ cap)
    (ha : a < 256) (hb : bv < 65536) (hc : c < 4294967296) :
    roundtripRun cap a bv c = .ok (a, bv, c) := by
  have h1 : (with_capacity cap).write_u8 a =
      .ok ⟨(writeLoop [a] 0 (List.replicate cap 0)).1, 1, 0⟩ := by
    unfold ByteBuffer.write_u8
    simpa [with_capacity] using
      write_bytes_ok (with_capacity cap) [a] (by simp [with_capacity]; omega)
  set d1 : List Nat := (writeLoop [a] 0 (List.replicate cap 0)).1 with hd1
  have hd1len : d1.length = cap := by
    rw [hd1, writeLoop_fst_length]
    simp
  have h2 : (⟨d1, 1, 0⟩ : ByteBuffer).write_u16 bv =
      .ok ⟨(writeLoop (u16le bv) 1 d1).1, 3, 0⟩ := by
    unfold ByteBuffer.write_u16
    simpa using
      write_bytes_ok ⟨d1, 1, 0⟩ (u16le bv) (by simp [u16le, hd1len]; omega)
  set d2 : List Nat := (writeLoop (u16le bv) 1 d1).1 with hd2
  have hd2len : d2.length = cap := by
    rw [hd2, writeLoop_fst_length, hd1len]
  have h3 : (⟨d2, 3, 0⟩ : ByteBuffer).write_u32 c =
      .ok ⟨(writeLoop (u32le c) 3 d2).1, 7, 0⟩ := by
    unfold ByteBuffer.write_u32
    simpa using
      write_bytes_ok ⟨d2, 3, 0⟩ (u32le c) (by simp [u32le, hd2len]; omega)
  set d3 : List Nat := (writeLoop (u32le c) 3 d2).1 with hd3
  have hd3len : d3.length = cap := by
    rw [hd3, writeLoop_fst_length, hd2len]
  have g0 : d3.getD 0 0 = a := by
    rw [hd3, writeLoop_getD_lt _ _ _ _ (by omega), hd2,
      writeLoop_getD_lt _ _ _ _ (by omega), hd1]
    simpa using
      writeLoop_getD_at [a] 0 0 (List.replicate cap 0) (by simp; omega) (by simp)
  have g1 : d3.getD 1 0 = bv % 256 := by
    rw [hd3, writeLoop_getD_lt _ _ _ _ (by omega), hd2]
    simpa [u16le] using
      writeLoop_getD_at (u16le bv) 1 0 d1 (by simp [u16le, hd1len]; omega)
        (by simp [u16le])
  have g2 : d3.getD 2 0 = bv / 256 % 256 := by
    rw [hd3, writeLoop_getD_lt _ _ _ _ (by omega), hd2]
    simpa [u16le] using
      writeLoop_getD_at (u16le bv) 1 1 d1 (by simp [u16le, hd1len]; omega)
        (by simp [u16le])
  have g3 : d3.getD 3 0 = c % 256 := by
    rw [hd3]
    simpa [u32le] using
      writeLoop_getD_at (u32le c) 3 0 d2 (by simp [u32le, hd2len]; omega)
        (by simp [u32le])
  have g4 : d3.getD 4 0 = c / 256 % 256 := by
    rw [hd3]
    simpa [u32le] using
      writeLoop_getD_at (u32le c) 3 1 d2 (by simp [u32le, hd2len]; omega)
        (by simp [u32le])
  have g5 : d3.getD 5 0 = c / 65536 % 256 := by
    rw [hd3]
    simpa [u32le] using
      writeLoop_getD_at (u32le c) 3 2 d2 (by simp [u32le, hd2len]; omega)
        (by simp [u32le])
  have g6 : d3.getD 6 0 = c / 16777216 % 256 := by
    rw [hd3]
    simpa [u32le] using
      writeLoop_getD_at (u32le c) 3 3 d2 (by simp [u32le, hd2len]; omega)
        (by simp [u32le])
  have r1 : (⟨d3, 7, 0⟩ : ByteBuffer).read_u8_as_u32 = .ok (a, ⟨d3, 7, 1⟩) := by
    simp only [ByteBuffer.read_u8_as_u32]
    rw [if_neg (by omega), g0]
  have r2 : (⟨d3, 7, 1⟩ : ByteBuffer).read_u16_as_u32 = .ok (bv, ⟨d3, 7, 3⟩) := by
    simp only [ByteBuffer.read_u16_as_u32]
    rw [if_neg (by omega)]
    rw [show (1 : Nat) + 1 = 2 from rfl, show (1 : Nat) + 2 = 3 from rfl, g1, g2]
    rw [show bv % 256 + 256 * (bv / 256 % 256) = bv from by omega]
  have r3 : (⟨d3, 7, 3⟩ : ByteBuffer).read_u32 = .ok (c, ⟨d3, 7, 7⟩) := by
    simp only [ByteBuffer.read_u32]
    rw [if_neg (by omega)]
    rw [show (3 : Nat) + 1 = 4 from rfl, show (3 : Nat) + 2 = 5 from rfl,
      show (3 : Nat) + 3 = 6 from rfl, show (3 : Nat) + 4 = 7 from rfl,
      g3, g4, g5, g6]
    rw [show c % 256 + 256 * (c / 256 % 256) + 65536 * (c / 65536 % 256) +
        16777216 * (c / 16777216 % 256) = c from by omega]
  simp only [roundtripRun, h1, h2, h3, r1, r2, r3]

/-- C1 witness: maximal values through a capacity-8 buffer. -/
theorem roundtrip_u8_u16_u32_witness :
    roundtripRun 8 255 65535 4294967295 = .ok (255, 65535, 4294967295) :=
  roundtrip_u8_u16_u32 8 255 65535 4294967295 (by decide) (by decide)
    (by decide) (by decide)
